import Mathlib

/-!
# Verification of the plain-text → HTML converter (`build_html.py`)

This file shallowly embeds the two core functions of the repository's
`build_html.py` — `extract_toc` (heading/TOC extraction) and
`format_content_to_html` (line classifier / block renderer) — and proves the
specification claims about them.

Python strings are modelled as Lean `String`s (lists of unicode scalar
values, which matches Python's code-point view of `str`: `len`, slicing and
per-character iteration agree).  Python's whitespace set for `str.strip` and
the regex class `\s` is modelled by `isPySpace` (the ASCII whitespace
characters; the inputs involved contain no exotic unicode spaces).
-/

namespace BuildHtml

/-- Python whitespace (`str.strip` default / regex `\s`), ASCII fragment. -/
def isPySpace (c : Char) : Bool :=
  c == ' ' || c == '\t' || c == '\n' || c == '\r' || c == '\x0b' || c == '\x0c'

/-- `str.strip()` on a list of characters: drop whitespace from both ends. -/
def pyStripL (cs : List Char) : List Char :=
  ((cs.dropWhile isPySpace).reverse.dropWhile isPySpace).reverse

/-- Python `str.strip()`. -/
def pyStrip (s : String) : String := ⟨pyStripL s.data⟩

/-- Python `str.rstrip()`: drop trailing whitespace. -/
def pyRstrip (s : String) : String := ⟨(s.data.reverse.dropWhile isPySpace).reverse⟩

/-- Python `s.startswith(p)`. -/
def strStarts (s p : String) : Bool := p.data.isPrefixOf s.data

/-- Python `s.endswith(p)`. -/
def strEnds (s p : String) : Bool := p.data.reverse.isPrefixOf s.data.reverse

/-- Substring test on char lists (Python `needle in hay`). -/
def containsL (needle : List Char) : List Char → Bool
  | [] => needle.isEmpty
  | c :: cs => needle.isPrefixOf (c :: cs) || containsL needle cs

/-- Python `needle in hay` for strings. -/
def strContainsSub (hay needle : String) : Bool := containsL needle.data hay.data

/-- Split a char list at every occurrence of `sep` (Python `str.split(sep)`
for a one-character separator: empty pieces are kept, `[] ↦ [[]]`). -/
def splitChar (sep : Char) : List Char → List (List Char)
  | [] => [[]]
  | c :: cs =>
    match splitChar sep cs with
    | [] => [[]]
    | h :: t => if c == sep then [] :: h :: t else (c :: h) :: t

/-- Python `content.split('\n')`. -/
def splitLines (content : String) : List String :=
  (splitChar '\n' content.data).map fun cs => (⟨cs⟩ : String)

/-- Python `s.split('.')`. -/
def dotSplit (s : String) : List String :=
  (splitChar '.' s.data).map fun cs => (⟨cs⟩ : String)

/-- Python `'\n'.join(...)`. -/
def joinNL (pieces : List String) : String := String.intercalate "\n" pieces

/-- The apostrophe character `U+0027`. -/
def apos : Char := Char.ofNat 39

/-- `html.escape` (with `quote=True`), per character:
`&`, `<`, `>`, `"` and `U+0027` become entities, all else is unchanged. -/
def escChar (c : Char) : List Char :=
  if c == '&' then "&amp;".data
  else if c == '<' then "&lt;".data
  else if c == '>' then "&gt;".data
  else if c == '"' then "&quot;".data
  else if c == apos then "&#x27;".data
  else [c]

/-- `html.escape(s, quote=True)` as used by the source (`from html import escape`). -/
def escapeHtml (s : String) : String := ⟨(s.data.map escChar).flatten⟩

/-- Inverse of `escapeHtml` on its image: decode the five entities it emits. -/
def unescL (cs : List Char) : List Char :=
  match cs with
  | [] => []
  | c :: rest =>
    if c == '&' then
      if "amp;".data.isPrefixOf rest then '&' :: unescL (rest.drop 4)
      else if "lt;".data.isPrefixOf rest then '<' :: unescL (rest.drop 3)
      else if "gt;".data.isPrefixOf rest then '>' :: unescL (rest.drop 3)
      else if "quot;".data.isPrefixOf rest then '"' :: unescL (rest.drop 5)
      else if "#x27;".data.isPrefixOf rest then apos :: unescL (rest.drop 5)
      else c :: unescL rest
    else c :: unescL rest
termination_by cs.length
decreasing_by all_goals (simp [List.length_cons, List.length_drop]; try omega)

/-- Un-escaping of HTML fragments (inverse of `escapeHtml`). -/
def unescapeHtml (s : String) : String := ⟨unescL s.data⟩

/-!
## The heading regex

Both `extract_toc` (line 16) and `format_content_to_html` (line 81) apply
`re.match(r'^(\d+(?:\.\d+){0,2})\.\s+(.+)$', ...)` to the stripped line.
We embed it as a deterministic greedy parser.  This is faithful to the
backtracking regex: the number part is made of digits and dots only, so the
`\.\s+` separator must sit at the first whitespace of the string, the greedy
`(?:\.\d+){0,2}` loop only consumes `.digits` groups (stopping a repetition
early can never rescue a match, because the following `\.` would then have to
be followed by a digit where `\s` is required), and since the input is a
stripped single line, the greedy `\s+` never needs to backtrack into `(.+)`.
Python's `.` does not match a newline, so a match requires the captured
remainder to be newline-free (the input, a stripped line, never ends in a
newline, so the `$`-before-trailing-newline case cannot arise).
-/

/-- The greedy `(?:\.\d+){0,2}` loop: consume up to `k` groups of
`'.'` followed by a non-empty digit run.  Returns (consumed, remaining). -/
def moreComps : Nat → List Char → List Char × List Char
  | 0, cs => ([], cs)
  | k + 1, cs =>
    match cs with
    | '.' :: cs2 =>
      if cs2.takeWhile Char.isDigit ≠ [] then
        let d := cs2.takeWhile Char.isDigit
        let r := moreComps k (cs2.dropWhile Char.isDigit)
        ('.' :: (d ++ r.1), r.2)
      else ([], cs)
    | _ => ([], cs)

/-- `re.match(r'^(\d+(?:\.\d+){0,2})\.\s+(.+)$', s)`: on success returns
(group 1 = numeric path, group 2 = remainder). -/
def headingMatch? (s : String) : Option (String × String) :=
  let cs := s.data
  let d0 := cs.takeWhile Char.isDigit
  if d0 = [] then none
  else
    let m := moreComps 2 (cs.dropWhile Char.isDigit)
    match m.2 with
    | '.' :: r2 =>
      let ws := r2.takeWhile isPySpace
      let rest := r2.dropWhile isPySpace
      if ws ≠ [] ∧ rest ≠ [] ∧ rest.all (fun c => !(c == '\n')) then
        some (⟨d0 ++ m.1⟩, ⟨rest⟩)
      else none
    | _ => none

/-!
## `extract_toc` (lines 8–47)
-/

/-- A TOC entry: the dict `{'id', 'number', 'title', 'level'}` built at
lines 40–45 of the source. -/
structure TocEntry where
  id : String
  number : String
  title : String
  level : Nat
deriving DecidableEq, Repr

/-- The `skip_keywords` denylist (lines 26–27 / 88–89 of the source). -/
def skipKeywords : List String :=
  ["用户访问", "响应时间", "JVM 已", "Nginx", "PHP 解释器", "启动 PHP",
   "收到请求", "直接调用", "可能创建", "重新解释", "累积使用"]

/-- `tuple([f'{i})' for i in range(10)])` (line 33). -/
def enumPrefixes : List String :=
  ["0)", "1)", "2)", "3)", "4)", "5)", "6)", "7)", "8)", "9)"]

/-- `f"h-{number.replace('.', '-')}"`: the anchor id derived from a numeric
path (single-character `str.replace` equals split-then-join).  The same
expression is used at line 41 (`extract_toc`) and line 93 (the body
renderer); this helper is that shared expression. -/
def headingId (number : String) : String :=
  "h-" ++ String.intercalate "-" (dotSplit number)

/-- One iteration of the `for line in lines` loop of `extract_toc`
(lines 14–45): the accepted entry for this line, if any, given the set of
already-accepted numbers. -/
def tocLineEntry? (tocIds : List String) (line : String) : Option TocEntry :=
  match headingMatch? (pyStrip line) with
  | none => none
  | some (number, rawTitle) =>
    let title := pyStrip rawTitle
    if 4 ≤ title.length
        ∧ (skipKeywords.any fun kw => strContainsSub title kw) = false
        ∧ strStarts title "http" = false
        ∧ (enumPrefixes.any fun p => strStarts (pyStrip line) p) = false
        ∧ number ∉ tocIds then
      some { id := headingId number, number := number, title := title,
             level := (dotSplit number).length }
    else none

/-- The loop of `extract_toc`, threading the `toc_ids` set. -/
def extractTocGo (tocIds : List String) : List String → List TocEntry
  | [] => []
  | line :: rest =>
    match tocLineEntry? tocIds line with
    | some e => e :: extractTocGo (e.number :: tocIds) rest
    | none => extractTocGo tocIds rest

/-- `extract_toc(content)` (lines 8–47 of `build_html.py`). -/
def extract_toc (content : String) : List TocEntry :=
  extractTocGo [] (splitLines content)

/-!
## `format_content_to_html` (lines 49–156)

The `while i < len(lines)` loop is embedded as `fmtGoF`, a fuel-indexed
recursion (`fmtGo` supplies `lines.length` as fuel, which is always enough
because every iteration consumes at least one line).  Each loop iteration is
recorded as a pair `(consumed lines, emitted fragments)`: the first component
is the span of input lines the iteration advanced over, the second the list
(empty or singleton) of HTML fragments it appended to `html`.  The function's
result `'\n'.join(html)` is recovered by joining the second components.
-/

/-- `'```'` — the code-fence marker (line 63). -/
def fenceStr : String := "```"

/-- `java_keywords` (line 100). -/
def javaKeywords : List String :=
  ["class ", "public ", "private ", "protected ", "@", "import ", "package ",
   "interface "]

/-- The `'\x7b'` character (an opening curly brace). -/
def lBrace : Char := Char.ofNat 123

/-- The `'\x7d'` character (a closing curly brace). -/
def rBrace : Char := Char.ofNat 125

/-- A one-character string holding an opening curly brace. -/
def lBraceStr : String := ⟨[lBrace]⟩

/-- `line.count('\x7b') - line.count('\x7d')` (lines 109, 115, 121). -/
def braceDelta (line : String) : Int :=
  (line.data.count lBrace : Int) - (line.data.count rBrace : Int)

/-- The `while i < len(lines) and brace_count > 0` loop (lines 119–122):
starting from balance `bc`, return how many further lines are consumed and
the final balance. -/
def collectBrace (bc : Int) : List String → Nat × Int
  | [] => (0, bc)
  | l :: ls =>
    if 0 < bc then
      let r := collectBrace (bc + braceDelta l) ls
      (r.1 + 1, r.2)
    else (0, bc)

/-- Lines 108–122: starting a brace-heuristic code block at `line`, with the
following lines `rest`.  Returns the number of lines of `rest` that are
pulled into the block (including the possible lookahead line whose stripped
form starts with `'\x7b'`, lines 113–116) and the final brace balance.  The
collected block is `line :: rest.take n`. -/
def braceBranch (line : String) (rest : List String) : Nat × Int :=
  let bc0 : Int := braceDelta line
  match rest with
  | next :: rest2 =>
    -- `if brace_count == 0 and i < len(lines) and lines[i].strip()
    --  and lines[i].strip()[0] == '\x7b'` — for a non-empty stripped string,
    -- testing its first character equals `startswith`.
    if bc0 = 0 ∧ strStarts (pyStrip next) lBraceStr = true then
      let r := collectBrace (braceDelta next) rest2
      (r.1 + 1, r.2)
    else collectBrace bc0 rest
  | [] => (0, bc0)

/-- The `while` loop of the indented-code branch (lines 138–142): number of
immediately following lines that are indented (4 spaces or tab) or blank.
(The `break` at lines 141–142 exits exactly where the loop condition would
next fail, so it does not change the consumed span.) -/
def collectIndentLen : List String → Nat
  | [] => 0
  | l :: ls =>
    if strStarts l "    " = true ∨ strStarts l "\t" = true ∨ pyStrip l = "" then
      collectIndentLen ls + 1
    else 0

/-- The heading fragment of line 92–93:
`f'<{h_tag} id="h-{number.replace(".", "-")}" class="heading level-{level}">{escape(stripped)}</{h_tag}>'`. -/
def headingHtml (number stripped : String) : String :=
  let level := (dotSplit number).length
  let hTag := "h" ++ toString (level + 1)
  "<" ++ hTag ++ " id=\"" ++ headingId number ++ "\" class=\"heading level-" ++
    toString level ++ "\">" ++ escapeHtml stripped ++ "</" ++ hTag ++ ">"

/-- `f'<p>{escape(line)}</p>'`. -/
def para (line : String) : String := "<p>" ++ escapeHtml line ++ "</p>"

/-- `'<div class="gap"></div>'` (line 148). -/
def gapDiv : String := "<div class=\"gap\"></div>"

/-- `'<pre><code>' + body + '</code></pre>'`. -/
def preCode (body : String) : String := "<pre><code>" ++ body ++ "</code></pre>"

/-- The classifier loop (lines 57–154), fuel-indexed.  One entry per loop
"iteration group": `(lines consumed, fragments appended to html)`. -/
def fmtGoF : Nat → Bool → List String → List String →
    List (List String × List String)
  | 0, _, _, _ => []
  | fuel + 1, inCode, codeLines, lines =>
    match lines with
    | [] => []
    | line :: rest =>
      let stripped := pyStrip line
      -- lines 62–73: fence marker toggles the fence state
      if strStarts stripped fenceStr then
        (if !inCode then
          ([line], []) :: fmtGoF fuel true [] rest
        else
          ([line], [preCode (escapeHtml (joinNL codeLines))]) ::
            fmtGoF fuel false [] rest)
      -- lines 75–78: inside a fence, buffer the line verbatim
      else if inCode then
        ([line], []) :: fmtGoF fuel true (codeLines ++ [line]) rest
      else
        -- lines 80–97: heading pattern
        match headingMatch? stripped with
        | some (number, title) =>
          (if 4 ≤ title.length
              ∧ (skipKeywords.any fun kw => strContainsSub title kw) = false then
            ([line], [headingHtml number stripped])
          else
            ([line], [para line])) :: fmtGoF fuel false codeLines rest
        | none =>
          -- lines 99–131: brace-heuristic code block
          if (javaKeywords.any fun kw => strStarts stripped kw)
              || strStarts stripped lBraceStr || strEnds stripped lBraceStr then
            let r := braceBranch line rest
            let blk := line :: rest.take r.1
            (if 1 < blk.length ∨ r.2 = 0 then
              (blk, [preCode (escapeHtml (joinNL blk))])
            else
              (blk, [para line])) :: fmtGoF fuel false codeLines (rest.drop r.1)
          -- lines 133–144: indented code block
          else if strStarts line "    " || strStarts line "\t" then
            let n := collectIndentLen rest
            (line :: rest.take n,
              [preCode (escapeHtml (pyRstrip (joinNL (line :: rest.take n))))]) ::
              fmtGoF fuel false codeLines (rest.drop n)
          -- lines 146–150: blank line
          else if stripped = "" then
            ([line], [gapDiv]) :: fmtGoF fuel false codeLines rest
          -- lines 152–154: plain paragraph
          else
            ([line], [para line]) :: fmtGoF fuel false codeLines rest

/-- The classifier loop with its natural fuel. -/
def fmtGo (inCode : Bool) (codeLines : List String) (lines : List String) :
    List (List String × List String) :=
  fmtGoF lines.length inCode codeLines lines

/-- `format_content_to_html(content, file_name)` (lines 49–156): the
fragments emitted by the loop, joined with `'\n'`.  (Lines buffered inside a
fence that is never closed are in no fragment, matching the source, which
drops `code_lines` at function exit.) -/
def format_content_to_html (content _fileName : String) : String :=
  joinNL ((fmtGo false [] (splitLines content)).map Prod.snd).flatten

/-!
## The heading shape described by the specification

These two predicates are written from the specification's words (not from
the source), to be compared against the source's recognizer `headingMatch?`.
-/

/-- Components joined by literal dots:
`dotJoin [a, b, c] = a ++ "." ++ b ++ "." ++ c` as char lists. -/
def dotJoin (comps : List (List Char)) : List Char :=
  match comps with
  | [] => []
  | c :: rest => c ++ (rest.map fun d => '.' :: d).flatten

/-- A non-empty run of decimal digits (a non-negative integer literal). -/
def DigitRun (cs : List Char) : Prop :=
  cs ≠ [] ∧ ∀ c ∈ cs, Char.isDigit c = true

/-- The shape claimed by the specification, literally: 1 to 3 dot-separated
non-negative integers, followed by a literal period, a single space, and a
non-empty remainder. -/
def specHeadingShape (s : String) : Prop :=
  ∃ comps rest, 1 ≤ comps.length ∧ comps.length ≤ 3 ∧
    (∀ comp ∈ comps, DigitRun comp) ∧ rest ≠ [] ∧
    s.data = dotJoin comps ++ '.' :: ' ' :: rest

/-- The amended shape: as `specHeadingShape`, but with one or more
whitespace characters after the period instead of exactly one space. -/
def amendedHeadingShape (s : String) : Prop :=
  ∃ comps ws rest, 1 ≤ comps.length ∧ comps.length ≤ 3 ∧
    (∀ comp ∈ comps, DigitRun comp) ∧
    ws ≠ [] ∧ (∀ c ∈ ws, isPySpace c = true) ∧ rest ≠ [] ∧
    s.data = dotJoin comps ++ '.' :: (ws ++ rest)

/-!
## Basic lemmas about the classifier loop
-/

theorem fmtGoF_nil (fuel : Nat) (inCode : Bool) (cl : List String) :
    fmtGoF fuel inCode cl [] = [] := by
  cases fuel <;> rfl

/-- Every iteration of the classifier consumes a contiguous span of input
lines, and the spans concatenate back to the input: no line is dropped or
duplicated by the classification rules. -/
theorem fmtGoF_spans (fuel : Nat) :
    ∀ (lines : List String), lines.length ≤ fuel →
      ∀ (inCode : Bool) (cl : List String),
        ((fmtGoF fuel inCode cl lines).map Prod.fst).flatten = lines := by
  induction fuel with
  | zero =>
    intro lines h inCode cl
    have : lines = [] := List.length_eq_zero.mp (Nat.le_zero.mp h)
    subst this
    simp [fmtGoF]
  | succ fuel ih =>
    intro lines h inCode cl
    match lines with
    | [] => simp [fmtGoF]
    | line :: rest =>
      have hr : rest.length ≤ fuel := by
        simp only [List.length_cons] at h; omega
      have hd : ∀ n : Nat, (rest.drop n).length ≤ fuel := by
        intro n; simp only [List.length_drop]; omega
      simp only [fmtGoF]
      split
      · -- fence marker
        split
        · simp [ih rest hr]
        · simp [ih rest hr]
      · split
        · -- buffering inside a fence
          simp [ih rest hr]
        · split
          · -- heading pattern matched
            split <;> simp [ih rest hr]
          · -- no heading match
            split
            · -- brace-heuristic block
              split <;> simp [ih _ (hd _), List.take_append_drop]
            · split
              · -- indented block
                simp [ih _ (hd _), List.take_append_drop]
              · split
                · simp [ih rest hr]
                · simp [ih rest hr]

/-- The classifier loop does not depend on the exact amount of fuel, as long
as there is at least one unit per remaining line. -/
theorem fmtGoF_congr (f1 : Nat) :
    ∀ (f2 : Nat) (lines : List String), lines.length ≤ f1 → lines.length ≤ f2 →
      ∀ (inCode : Bool) (cl : List String),
        fmtGoF f1 inCode cl lines = fmtGoF f2 inCode cl lines := by
  induction f1 with
  | zero =>
    intro f2 lines h1 _ inCode cl
    have : lines = [] := List.length_eq_zero.mp (Nat.le_zero.mp h1)
    subst this
    simp [fmtGoF_nil]
  | succ f1 ih =>
    intro f2 lines h1 h2 inCode cl
    match lines with
    | [] => simp [fmtGoF_nil]
    | line :: rest =>
      match f2 with
      | 0 => simp at h2
      | f2 + 1 =>
        have hr1 : rest.length ≤ f1 := by simp only [List.length_cons] at h1; omega
        have hr2 : rest.length ≤ f2 := by simp only [List.length_cons] at h2; omega
        have hd1 : ∀ n : Nat, (rest.drop n).length ≤ f1 := by
          intro n; simp only [List.length_drop]; omega
        have hd2 : ∀ n : Nat, (rest.drop n).length ≤ f2 := by
          intro n; simp only [List.length_drop]; omega
        simp only [fmtGoF]
        split
        · split <;> rw [ih f2 rest hr1 hr2]
        · split
          · rw [ih f2 rest hr1 hr2]
          · split
            · rw [ih f2 rest hr1 hr2]
            · split
              · rw [ih f2 _ (hd1 _) (hd2 _)]
              · split
                · rw [ih f2 _ (hd1 _) (hd2 _)]
                · split
                  · rw [ih f2 rest hr1 hr2]
                  · rw [ih f2 rest hr1 hr2]

/-- A line matched by the heading regex starts with a digit, hence is not a
fence marker. -/
theorem headingMatch_not_fence {s : String} {nt : String × String}
    (hm : headingMatch? s = some nt) : strStarts s fenceStr = false := by
  simp only [headingMatch?] at hm
  split at hm
  · exact absurd hm (by simp)
  · rename_i hd0
    cases hsw : strStarts s fenceStr with
    | false => rfl
    | true =>
      exfalso
      have hpre : ∃ t, fenceStr.data ++ t = s.data :=
        List.isPrefixOf_iff_prefix.mp hsw
      obtain ⟨t, ht⟩ := hpre
      apply hd0
      rw [← ht]
      have hfd : fenceStr.data = '`' :: '`' :: '`' :: [] := rfl
      rw [hfd]
      rw [List.cons_append, List.takeWhile_cons_of_neg (by decide)]

/-!
## Single-step unfolding lemmas for `fmtGo`
-/

theorem fmtGo_step_fence_open {line : String} {rest : List String}
    (h : strStarts (pyStrip line) fenceStr = true) (cl : List String) :
    fmtGo false cl (line :: rest) = ([line], []) :: fmtGo true [] rest := by
  show fmtGoF (rest.length + 1) false cl (line :: rest) = _
  simp only [fmtGoF, h]
  rfl

theorem fmtGo_step_fence_close {line : String} {rest : List String}
    (h : strStarts (pyStrip line) fenceStr = true) (cl : List String) :
    fmtGo true cl (line :: rest) =
      ([line], [preCode (escapeHtml (joinNL cl))]) :: fmtGo false [] rest := by
  show fmtGoF (rest.length + 1) true cl (line :: rest) = _
  simp only [fmtGoF, h]
  rfl

theorem fmtGo_step_in_fence {line : String} {rest : List String}
    (h : strStarts (pyStrip line) fenceStr = false) (cl : List String) :
    fmtGo true cl (line :: rest) = ([line], []) :: fmtGo true (cl ++ [line]) rest := by
  show fmtGoF (rest.length + 1) true cl (line :: rest) = _
  simp only [fmtGoF, h]
  rfl

theorem fmtGo_step_heading {line number title : String} {rest : List String}
    (hm : headingMatch? (pyStrip line) = some (number, title)) (cl : List String) :
    fmtGo false cl (line :: rest) =
      (if 4 ≤ title.length
          ∧ (skipKeywords.any fun kw => strContainsSub title kw) = false then
        ([line], [headingHtml number (pyStrip line)])
      else
        ([line], [para line])) :: fmtGo false cl rest := by
  show fmtGoF (rest.length + 1) false cl (line :: rest) = _
  simp only [fmtGoF, headingMatch_not_fence hm, hm]
  rfl

/-!
## Uniqueness of numeric paths in the outline
-/

theorem tocLineEntry_number_notMem {ids : List String} {line : String}
    {e : TocEntry} (h : tocLineEntry? ids line = some e) : e.number ∉ ids := by
  simp only [tocLineEntry?] at h
  split at h
  · exact absurd h (by simp)
  · split at h
    · rename_i hcond
      have he := Option.some_inj.mp h
      subst he
      exact hcond.2.2.2.2
    · exact absurd h (by simp)

theorem extractTocGo_number_notMem :
    ∀ (lines : List String) (ids : List String) (e : TocEntry),
      e ∈ extractTocGo ids lines → e.number ∉ ids := by
  intro lines
  induction lines with
  | nil => intro ids e h; simp [extractTocGo] at h
  | cons line rest ih =>
    intro ids e h
    unfold extractTocGo at h
    split at h
    · rename_i e0 he0
      rcases List.mem_cons.mp h with rfl | hmem
      · exact tocLineEntry_number_notMem he0
      · intro hin
        exact ih _ e hmem (List.mem_cons_of_mem _ hin)
    · exact ih _ e h

theorem extractTocGo_numbers_pairwise :
    ∀ (lines : List String) (ids : List String),
      (extractTocGo ids lines).Pairwise fun a b => a.number ≠ b.number := by
  intro lines
  induction lines with
  | nil => intro ids; simp [extractTocGo]
  | cons line rest ih =>
    intro ids
    unfold extractTocGo
    split
    · rename_i e0 he0
      refine List.Pairwise.cons ?_ (ih _)
      intro b hb hEq
      have : b.number ∉ e0.number :: ids := extractTocGo_number_notMem _ _ _ hb
      exact this (hEq ▸ List.mem_cons_self _ _)
    · exact ih _

/-!
## Shape of the regex captures
-/

/-- The `(?:\.\d+){0,2}` loop consumes a prefix of its input. -/
theorem moreComps_append : ∀ (k : Nat) (cs : List Char),
    (moreComps k cs).1 ++ (moreComps k cs).2 = cs := by
  intro k
  induction k with
  | zero => intro cs; rfl
  | succ k ih =>
    intro cs
    match cs with
    | [] => rfl
    | c :: cs2 =>
      simp only [moreComps]
      split
      · rename_i cs2' heq
        injection heq with hc hcs
        subst hc
        subst hcs
        split
        · simp only [List.cons_append, List.append_assoc, ih,
            List.takeWhile_append_dropWhile]
        · rfl
      · rfl

/-- The captured remainder (group 2) is a non-empty suffix of the input whose
first character is not whitespace. -/
theorem headingMatch_title_shape {s n t : String}
    (hm : headingMatch? s = some (n, t)) :
    (∃ pre, s.data = pre ++ t.data) ∧ t.data ≠ [] ∧
      ∀ c, t.data.head? = some c → isPySpace c = false := by
  simp only [headingMatch?] at hm
  split at hm
  · exact absurd hm (by simp)
  · split at hm
    · rename_i r2 hr2
      split at hm
      · rename_i hcond
        have ht : t.data = r2.dropWhile isPySpace := by
          have := (Option.some_inj.mp hm)
          have ht' := congrArg Prod.snd this
          simp at ht'
          rw [← ht']
      -- s.data decomposes around the captured remainder
        refine ⟨?_, ?_, ?_⟩
        · refine ⟨s.data.takeWhile Char.isDigit ++
            ((moreComps 2 (s.data.dropWhile Char.isDigit)).1 ++
              ('.' :: r2.takeWhile isPySpace)), ?_⟩
          have h1 : (moreComps 2 (s.data.dropWhile Char.isDigit)).1 ++ ('.' :: r2)
              = s.data.dropWhile Char.isDigit := by
            rw [← hr2]; exact moreComps_append 2 _
          have hsd : s.data = s.data.takeWhile Char.isDigit ++
              ((moreComps 2 (s.data.dropWhile Char.isDigit)).1 ++ ('.' :: r2)) := by
            rw [h1, List.takeWhile_append_dropWhile]
          rw [ht]
          conv_lhs => rw [hsd]
          rw [show ('.' :: r2) =
            '.' :: (r2.takeWhile isPySpace ++ r2.dropWhile isPySpace) by
            rw [List.takeWhile_append_dropWhile]]
          simp [List.cons_append, List.append_assoc]
        · rw [ht]; exact hcond.2.1
        · intro c hc
          rw [ht] at hc
          have := List.head?_dropWhile_not isPySpace r2
          rw [hc] at this
          exact this
      · exact absurd hm (by simp)
    · exact absurd hm (by simp)

/-- A list whose first and last characters are not whitespace is unchanged
by stripping. -/
theorem pyStripL_eq_self {cs : List Char}
    (h1 : ∀ c, cs.head? = some c → isPySpace c = false)
    (h2 : ∀ c, cs.getLast? = some c → isPySpace c = false) :
    pyStripL cs = cs := by
  unfold pyStripL
  match cs with
  | [] => rfl
  | c :: cs' =>
    rw [List.dropWhile_cons_of_neg (by simp [h1 c rfl])]
    match hr : (c :: cs').reverse with
    | [] => exact absurd hr (by simp)
    | d :: ds =>
      have hd : (c :: cs').getLast? = some d := by
        rw [← List.head?_reverse, hr]; rfl
      rw [List.dropWhile_cons_of_neg (by simp [h2 d hd])]
      rw [← hr, List.reverse_reverse]

/-- The last character of a stripped string is not whitespace. -/
theorem pyStrip_getLast {s : String} {c : Char}
    (h : (pyStrip s).data.getLast? = some c) : isPySpace c = false := by
  have : (pyStrip s).data.getLast? =
      ((s.data.dropWhile isPySpace).reverse.dropWhile isPySpace).head? := by
    show (pyStripL s.data).getLast? = _
    unfold pyStripL
    rw [List.getLast?_reverse]
  rw [this] at h
  have hw := List.head?_dropWhile_not isPySpace (s.data.dropWhile isPySpace).reverse
  rw [h] at hw
  exact hw

/-- The title captured from a stripped line is itself stripped
(`match.group(2).strip() == match.group(2)`): it starts with a non-whitespace
character by greediness of `\s+`, and it ends the stripped line. -/
theorem headingMatch_pyStrip_title {line n t : String}
    (hm : headingMatch? (pyStrip line) = some (n, t)) : pyStrip t = t := by
  obtain ⟨⟨pre, hsplit⟩, hne, hhead⟩ := headingMatch_title_shape hm
  have hlast : ∀ c, t.data.getLast? = some c → isPySpace c = false := by
    intro c hc
    apply pyStrip_getLast (s := line)
    rw [hsplit, List.getLast?_append_of_ne_nil _ hne]
    exact hc
  show (⟨pyStripL t.data⟩ : String) = t
  rw [pyStripL_eq_self hhead hlast]

/-!
## Behaviour of the fence state
-/

/-- While inside a fence, lines that are not fence markers are buffered
verbatim and emit nothing; the first fence-marker line closes the fence and
emits a single code fragment holding the whole buffer. -/
theorem fmtGo_fence_buffer :
    ∀ (body buf : List String) (closer : String) (rest : List String),
      (∀ l ∈ body, strStarts (pyStrip l) fenceStr = false) →
      strStarts (pyStrip closer) fenceStr = true →
      fmtGo true buf (body ++ closer :: rest) =
        (body.map fun l => ([l], [])) ++
          ([closer], [preCode (escapeHtml (joinNL (buf ++ body)))]) ::
            fmtGo false [] rest := by
  intro body
  induction body with
  | nil =>
    intro buf closer rest _ hc
    simpa using fmtGo_step_fence_close hc buf
  | cons l body ih =>
    intro buf closer rest hb hc
    have hl : strStarts (pyStrip l) fenceStr = false := hb l (List.mem_cons_self _ _)
    rw [List.cons_append, fmtGo_step_in_fence hl,
      ih (buf ++ [l]) closer rest (fun x hx => hb x (List.mem_cons_of_mem _ hx)) hc]
    simp [List.append_assoc]

/-- If no remaining line is a fence marker, the fence never closes: every
remaining line is buffered and no fragment is ever emitted. -/
theorem fmtGo_fence_unclosed :
    ∀ (body buf : List String),
      (∀ l ∈ body, strStarts (pyStrip l) fenceStr = false) →
      fmtGo true buf body = body.map fun l => ([l], []) := by
  intro body
  induction body with
  | nil => intro buf _; rfl
  | cons l body ih =>
    intro buf hb
    rw [fmtGo_step_in_fence (hb l (List.mem_cons_self _ _)),
      ih (buf ++ [l]) (fun x hx => hb x (List.mem_cons_of_mem _ hx))]
    rfl

/-!
## Escaping is invertible
-/

theorem unescL_escape : ∀ cs : List Char, unescL ((cs.map escChar).flatten) = cs := by
  intro cs
  induction cs with
  | nil => rw [List.map_nil, List.flatten_nil, unescL]
  | cons c cs ih =>
    simp only [List.map_cons, List.flatten_cons]
    by_cases h1 : c = '&'
    · subst h1
      show unescL ('&' :: ('a' :: 'm' :: 'p' :: ';' :: (cs.map escChar).flatten)) = _
      rw [unescL]
      simp only [beq_self_eq_true, if_true]
      rw [if_pos (by simp [List.isPrefixOf])]
      have hdrop : ('a' :: 'm' :: 'p' :: ';' :: (cs.map escChar).flatten).drop 4 =
          (cs.map escChar).flatten := rfl
      rw [hdrop, ih]
    · by_cases h2 : c = '<'
      · subst h2
        show unescL ('&' :: ('l' :: 't' :: ';' :: (cs.map escChar).flatten)) = _
        rw [unescL]
        simp only [beq_self_eq_true, if_true]
        rw [if_neg (by simp [List.isPrefixOf]), if_pos (by simp [List.isPrefixOf])]
        have hdrop : ('l' :: 't' :: ';' :: (cs.map escChar).flatten).drop 3 =
            (cs.map escChar).flatten := rfl
        rw [hdrop, ih]
      · by_cases h3 : c = '>'
        · subst h3
          show unescL ('&' :: ('g' :: 't' :: ';' :: (cs.map escChar).flatten)) = _
          rw [unescL]
          simp only [beq_self_eq_true, if_true]
          rw [if_neg (by simp [List.isPrefixOf]), if_neg (by simp [List.isPrefixOf]),
            if_pos (by simp [List.isPrefixOf])]
          have hdrop : ('g' :: 't' :: ';' :: (cs.map escChar).flatten).drop 3 =
              (cs.map escChar).flatten := rfl
          rw [hdrop, ih]
        · by_cases h4 : c = '"'
          · subst h4
            show unescL ('&' :: ('q' :: 'u' :: 'o' :: 't' :: ';' ::
              (cs.map escChar).flatten)) = _
            rw [unescL]
            simp only [beq_self_eq_true, if_true]
            rw [if_neg (by simp [List.isPrefixOf]), if_neg (by simp [List.isPrefixOf]),
              if_neg (by simp [List.isPrefixOf]), if_pos (by simp [List.isPrefixOf])]
            have hdrop : ('q' :: 'u' :: 'o' :: 't' :: ';' ::
                (cs.map escChar).flatten).drop 5 = (cs.map escChar).flatten := rfl
            rw [hdrop, ih]
          · by_cases h5 : c = apos
            · subst h5
              show unescL ('&' :: ('#' :: 'x' :: '2' :: '7' :: ';' ::
                (cs.map escChar).flatten)) = _
              rw [unescL]
              simp only [beq_self_eq_true, if_true]
              rw [if_neg (by simp [List.isPrefixOf]), if_neg (by simp [List.isPrefixOf]),
                if_neg (by simp [List.isPrefixOf]), if_neg (by simp [List.isPrefixOf]),
                if_pos (by simp [List.isPrefixOf])]
              have hdrop : ('#' :: 'x' :: '2' :: '7' :: ';' ::
                  (cs.map escChar).flatten).drop 5 = (cs.map escChar).flatten := rfl
              rw [hdrop, ih]
            · have he : escChar c = [c] := by
                simp [escChar, h1, h2, h3, h4, h5]
              rw [he, List.cons_append, List.nil_append, unescL]
              rw [if_neg (by simp [h1]), ih]

/-- `unescapeHtml` inverts `escapeHtml`: escaped fragments reproduce their
source text exactly after un-escaping. -/
theorem unescape_escape (s : String) : unescapeHtml (escapeHtml s) = s := by
  show (⟨unescL (⟨(s.data.map escChar).flatten⟩ : String).data⟩ : String) = s
  rw [show (⟨(s.data.map escChar).flatten⟩ : String).data =
    (s.data.map escChar).flatten from rfl]
  rw [unescL_escape]

/-!
## The recognizer agrees with the (amended) specification shape
-/

/-- Whatever `moreComps` consumes is a dot-separated sequence of at most `k`
digit runs. -/
theorem moreComps_shape : ∀ (k : Nat) (cs : List Char),
    ∃ comps : List (List Char), comps.length ≤ k ∧ (∀ d ∈ comps, DigitRun d) ∧
      (moreComps k cs).1 = (comps.map fun d => '.' :: d).flatten := by
  intro k
  induction k with
  | zero => intro cs; exact ⟨[], by simp [moreComps]⟩
  | succ k ih =>
    intro cs
    match cs with
    | [] => exact ⟨[], by simp [moreComps]⟩
    | c :: cs2 =>
      simp only [moreComps]
      split
      · rename_i cs2' heq
        injection heq with hc hcs
        subst hc
        subst hcs
        split
        · rename_i hne
          obtain ⟨comps', hlen, hdr, hflat⟩ := ih (cs2.dropWhile Char.isDigit)
          refine ⟨cs2.takeWhile Char.isDigit :: comps', by simp; omega, ?_, ?_⟩
          · intro d hd
            rcases List.mem_cons.mp hd with rfl | hmem
            · exact ⟨hne, fun c hc => List.mem_takeWhile_imp hc⟩
            · exact hdr d hmem
          · simp only [List.map_cons, List.flatten_cons, ← hflat, List.cons_append]
        · exact ⟨[], by simp⟩
      · exact ⟨[], by simp⟩

/-- Soundness: a line accepted by the source's recognizer has the amended
shape (numeric path of 1–3 digit runs, a period, whitespace, a remainder). -/
theorem headingMatch_shape_sound {s : String} {nt : String × String}
    (hm : headingMatch? s = some nt) : amendedHeadingShape s := by
  simp only [headingMatch?] at hm
  split at hm
  · exact absurd hm (by simp)
  · rename_i hd0
    split at hm
    · rename_i r2 hr2
      split at hm
      · rename_i hcond
        obtain ⟨comps', hlen, hdr, hflat⟩ :=
          moreComps_shape 2 (s.data.dropWhile Char.isDigit)
        refine ⟨s.data.takeWhile Char.isDigit :: comps',
          r2.takeWhile isPySpace, r2.dropWhile isPySpace,
          by simp, by simp; omega, ?_, hcond.1, ?_, hcond.2.1, ?_⟩
        · intro d hd
          rcases List.mem_cons.mp hd with rfl | hmem
          · exact ⟨hd0, fun c hc => List.mem_takeWhile_imp hc⟩
          · exact hdr d hmem
        · intro c hc
          exact List.mem_takeWhile_imp hc
        · have h1 : (moreComps 2 (s.data.dropWhile Char.isDigit)).1 ++ ('.' :: r2)
              = s.data.dropWhile Char.isDigit := by
            rw [← hr2]; exact moreComps_append 2 _
          simp only [dotJoin]
          rw [List.takeWhile_append_dropWhile (p := isPySpace) (l := r2), ← hflat]
          conv_lhs => rw [← List.takeWhile_append_dropWhile (p := Char.isDigit)
            (l := s.data), ← h1]
          simp [List.append_assoc]
      · exact absurd hm (by simp)
    · exact absurd hm (by simp)

theorem space_not_digit {c : Char} (h : isPySpace c = true) :
    Char.isDigit c = false := by
  simp only [isPySpace, Bool.or_eq_true, beq_iff_eq] at h
  rcases h with ((((rfl | rfl) | rfl) | rfl) | rfl) | rfl <;> rfl

/-- A dot-separated tail followed by `'.' :: X` starts with a dot. -/
theorem flatten_dot_head (dtl : List (List Char)) (X : List Char) :
    ((dtl.map fun d => '.' :: d).flatten ++ '.' :: X).head? = some '.' := by
  cases dtl with
  | nil => rfl
  | cons d dtl => rfl

theorem takeWhile_digit_of_head_dot {Y : List Char} (h : Y.head? = some '.') :
    Y.takeWhile Char.isDigit = [] ∧ Y.dropWhile Char.isDigit = Y := by
  cases Y with
  | nil => simp at h
  | cons y ys =>
    have hy : y = '.' := by simpa using h
    subst hy
    exact ⟨List.takeWhile_cons_of_neg (by decide),
      List.dropWhile_cons_of_neg (by decide)⟩

/-- `moreComps` consumes exactly a well-formed dot-separated digit-run tail
when the following character (after the trailing period) is not a digit. -/
theorem moreComps_exact :
    ∀ (dtl : List (List Char)) (k : Nat), dtl.length ≤ k →
      (∀ d ∈ dtl, DigitRun d) →
      ∀ X : List Char, (∀ c, X.head? = some c → Char.isDigit c = false) →
      moreComps k ((dtl.map fun d => '.' :: d).flatten ++ '.' :: X)
        = ((dtl.map fun d => '.' :: d).flatten, '.' :: X) := by
  intro dtl
  induction dtl with
  | nil =>
    intro k _ _ X hX
    match k with
    | 0 => rfl
    | k + 1 =>
      show moreComps (k + 1) ('.' :: X) = ([], '.' :: X)
      simp only [moreComps]
      rw [if_neg]
      simp only [ne_eq, not_not]
      cases X with
      | nil => rfl
      | cons x xs =>
        cases hx : Char.isDigit x with
        | false => rw [List.takeWhile_cons_of_neg (by simp [hx])]
        | true => exact absurd (hX x rfl) (by simp [hx])
  | cons d dtl ih =>
    intro k hk hdr X hX
    match k with
    | 0 => simp at hk
    | k + 1 =>
      have hdd : DigitRun d := hdr d (List.mem_cons_self _ _)
      have harg : ((List.map (fun d => '.' :: d) (d :: dtl)).flatten ++ '.' :: X)
          = '.' :: (d ++ ((dtl.map fun d => '.' :: d).flatten ++ '.' :: X)) := by
        simp [List.append_assoc]
      rw [harg]
      simp only [moreComps]
      have htw : (d ++ ((dtl.map fun d => '.' :: d).flatten ++ '.' :: X)).takeWhile
          Char.isDigit = d := by
        rw [List.takeWhile_append_of_pos hdd.2,
          (takeWhile_digit_of_head_dot (flatten_dot_head dtl X)).1, List.append_nil]
      have hdw : (d ++ ((dtl.map fun d => '.' :: d).flatten ++ '.' :: X)).dropWhile
          Char.isDigit = (dtl.map fun d => '.' :: d).flatten ++ '.' :: X := by
        rw [List.dropWhile_append_of_pos hdd.2,
          (takeWhile_digit_of_head_dot (flatten_dot_head dtl X)).2]
      rw [if_pos (by rw [htw]; exact hdd.1)]
      rw [htw, hdw, ih k (by simpa using Nat.le_of_succ_le_succ (by simpa using hk))
        (fun x hx => hdr x (List.mem_cons_of_mem _ hx)) X hX]
      simp [List.map_cons, List.flatten_cons, List.append_assoc]

/-- Completeness: any trimmed, newline-free line of the amended shape is
accepted by the source's recognizer. -/
theorem headingMatch_shape_complete {s : String} (hstrip : pyStrip s = s)
    (hnl : ∀ c ∈ s.data, (c == '\n') = false)
    (hshape : amendedHeadingShape s) : (headingMatch? s).isSome = true := by
  obtain ⟨comps, ws, rest, hlen1, hlen3, hdr, hws, hwsp, hrest, heq⟩ := hshape
  obtain ⟨c0, ctail, rfl⟩ : ∃ c0 ctail, comps = c0 :: ctail := by
    cases comps with
    | nil => simp at hlen1
    | cons a b => exact ⟨a, b, rfl⟩
  have hc0 : DigitRun c0 := hdr c0 (List.mem_cons_self _ _)
  have heq' : s.data = c0 ++
      ((ctail.map fun d => '.' :: d).flatten ++ '.' :: (ws ++ rest)) := by
    rw [heq]; simp [dotJoin, List.append_assoc]
  have hE1 : s.data.takeWhile Char.isDigit = c0 := by
    rw [heq', List.takeWhile_append_of_pos hc0.2,
      (takeWhile_digit_of_head_dot (flatten_dot_head ctail (ws ++ rest))).1,
      List.append_nil]
  have hE2 : s.data.dropWhile Char.isDigit =
      (ctail.map fun d => '.' :: d).flatten ++ '.' :: (ws ++ rest) := by
    rw [heq', List.dropWhile_append_of_pos hc0.2,
      (takeWhile_digit_of_head_dot (flatten_dot_head ctail (ws ++ rest))).2]
  have hE3 : moreComps 2 ((ctail.map fun d => '.' :: d).flatten ++
      '.' :: (ws ++ rest)) = ((ctail.map fun d => '.' :: d).flatten,
        '.' :: (ws ++ rest)) := by
    apply moreComps_exact ctail 2 (by simp at hlen3; omega)
      (fun d hd => hdr d (List.mem_cons_of_mem _ hd))
    intro c hc
    obtain ⟨w, ws', rfl⟩ : ∃ w ws', ws = w :: ws' := by
      cases ws with
      | nil => exact absurd rfl hws
      | cons a b => exact ⟨a, b, rfl⟩
    have hcw : w = c := by simpa using hc
    subst hcw
    exact space_not_digit (hwsp w (List.mem_cons_self _ _))
  obtain ⟨w, ws', rfl⟩ : ∃ w ws', ws = w :: ws' := by
    cases ws with
    | nil => exact absurd rfl hws
    | cons a b => exact ⟨a, b, rfl⟩
  have hwsp0 : isPySpace w = true := hwsp w (List.mem_cons_self _ _)
  have hE4 : (w :: (ws' ++ rest)).takeWhile isPySpace ≠ [] := by
    rw [List.takeWhile_cons_of_pos hwsp0]
    simp
  -- the last character of `rest` is a non-whitespace character of `s`
  have hsne : s.data ≠ [] := by
    rw [heq']
    intro hcontra
    exact hc0.1 (List.append_eq_nil.mp hcontra).1
  obtain ⟨cl, hcl⟩ : ∃ cl, rest.getLast? = some cl :=
    ⟨rest.getLast hrest, List.getLast?_eq_getLast_of_ne_nil hrest⟩
  have hclmem : cl ∈ rest := by
    have := List.getLast?_eq_getLast_of_ne_nil hrest
    rw [hcl] at this
    have hcl' : cl = rest.getLast hrest := by simpa using this
    rw [hcl']
    exact List.getLast_mem hrest
  have hlastS : s.data.getLast? = some cl := by
    rw [heq, List.getLast?_append_of_ne_nil _ (by simp),
      show ('.' :: (w :: ws' ++ rest)) = ['.'] ++ (w :: ws' ++ rest) from rfl,
      List.getLast?_append_of_ne_nil _ (by simp),
      List.getLast?_append_of_ne_nil _ hrest]
    exact hcl
  have hclsp : isPySpace cl = false := by
    apply pyStrip_getLast (s := s)
    rw [hstrip]
    exact hlastS
  have hE5 : (w :: (ws' ++ rest)).dropWhile isPySpace ≠ [] := by
    intro hnil
    have := List.dropWhile_eq_nil_iff.mp hnil cl
      (by
        apply List.mem_cons_of_mem
        exact List.mem_append_right _ hclmem)
    rw [hclsp] at this
    exact absurd this (by simp)
  have hE6 : ((w :: (ws' ++ rest)).dropWhile isPySpace).all
      (fun c => !(c == '\n')) = true := by
    rw [List.all_eq_true]
    intro c hcmem
    have hcs : c ∈ w :: (ws' ++ rest) :=
      (List.dropWhile_sublist (p := isPySpace) (l := w :: (ws' ++ rest))).mem hcmem
    have hcsS : c ∈ s.data := by
      rw [heq]
      apply List.mem_append_right
      apply List.mem_cons_of_mem
      simpa using hcs
    simpa using hnl c hcsS
  simp only [headingMatch?]
  rw [hE1, if_neg hc0.1, hE2, hE3]
  simp only [List.cons_append]
  rw [if_pos ⟨hE4, hE5, hE6⟩]
  rfl

/-- Fragments of in-fence iterations are all empty. -/
theorem map_snd_buffered_flatten (bs : List String) :
    ((bs.map fun l => (([l] : List String), ([] : List String))).map
      Prod.snd).flatten = [] := by
  induction bs with
  | nil => rfl
  | cons b bs ih => simp [ih]

/-!
## The claims
-/

/-- **C1** (confirmed): for every input text, the line-spans consumed by the
six classification rules of `format_content_to_html` (fence, heading,
brace-code, indented-code, blank, paragraph) concatenate back to the full
input line sequence — every line is covered exactly once, in original order,
none dropped or duplicated. -/
theorem claim_C1_coverage (content : String) :
    ((fmtGo false [] (splitLines content)).map Prod.fst).flatten =
      splitLines content :=
  fmtGoF_spans (splitLines content).length (splitLines content)
    (Nat.le_refl _) false []

/-- **C2** (counterexample): the claim says a fence only terminates on a line
trimming to *exactly* three backticks.  In the code, any line whose trimmed
content *starts with* three backticks closes the fence: with input
` ``` / ```` / ``` ` the middle four-backtick line closes the fence (emitting
an empty code fragment) instead of being buffered, so the fenced text is not
reproduced — the output contains no four-backtick sequence at all. -/
theorem claim_C2_counterexample :
    format_content_to_html "```\n````\n```" "" = "<pre><code></code></pre>" ∧
      strContainsSub (format_content_to_html "```\n````\n```" "") "````" =
        false := by
  constructor <;> decide

/-- **C2** (amended): lines inside a fence are buffered verbatim with no
further classification, the fence terminates on the first subsequent line
whose *trimmed content starts with* three backticks, and on close the
enclosed text is reproduced exactly (after un-escaping) inside one code
fragment. -/
theorem claim_C2_fence_roundtrip {opener closer : String}
    {body rest cl : List String}
    (hop : strStarts (pyStrip opener) fenceStr = true)
    (hcl : strStarts (pyStrip closer) fenceStr = true)
    (hbody : ∀ l ∈ body, strStarts (pyStrip l) fenceStr = false) :
    fmtGo false cl (opener :: (body ++ closer :: rest)) =
      ([opener], []) :: ((body.map fun l => ([l], [])) ++
        ([closer], [preCode (escapeHtml (joinNL body))]) ::
          fmtGo false [] rest) ∧
    unescapeHtml (escapeHtml (joinNL body)) = joinNL body := by
  constructor
  · rw [fmtGo_step_fence_open hop,
      fmtGo_fence_buffer body [] closer rest hbody hcl]
    simp
  · exact unescape_escape _

theorem claim_C2_fence_roundtrip_witness :
    (strStarts (pyStrip "```") fenceStr = true ∧
      strStarts (pyStrip "int a = b & c; // `nice`") fenceStr = false) ∧
    (fmtGo false [] ("```" :: (["int a = b & c; // `nice`"] ++ "```" :: [])) =
      ([("```" : String)], ([] : List String)) ::
        (((["int a = b & c; // `nice`"] : List String).map fun l => ([l], [])) ++
          ([("```" : String)],
            [preCode (escapeHtml (joinNL ["int a = b & c; // `nice`"]))]) ::
            fmtGo false [] []) ∧
      unescapeHtml (escapeHtml (joinNL ["int a = b & c; // `nice`"])) =
        joinNL ["int a = b & c; // `nice`"]) :=
  ⟨⟨by decide, by decide⟩,
    claim_C2_fence_roundtrip (by decide) (by decide) (by decide)⟩

/-- **C3** (confirmed): whenever a line yields a TOC entry `e`, the body
renderer processes that same line as a heading and emits a fragment whose
`id="…"` attribute is character-for-character `e.id`, both being the numeric
path with dots replaced by hyphens, prefixed `h-`. -/
theorem claim_C3_id_coupling {tocIds : List String} {line : String}
    {e : TocEntry} (cl rest : List String)
    (h : tocLineEntry? tocIds line = some e) :
    fmtGo false cl (line :: rest) =
      ([line], [headingHtml e.number (pyStrip line)]) :: fmtGo false cl rest ∧
    e.id = headingId e.number ∧
    ∃ pre post : List Char, (headingHtml e.number (pyStrip line)).data =
      pre ++ ("id=\"" ++ e.id ++ "\"").data ++ post := by
  simp only [tocLineEntry?] at h
  split at h
  · exact absurd h (by simp)
  · rename_i nt number rawTitle heqnt
    split at h
    · rename_i hcond
      have he := Option.some_inj.mp h
      have hnum : e.number = number := by rw [← he]
      have hid : e.id = headingId number := by rw [← he]
      have hstrip : pyStrip rawTitle = rawTitle :=
        headingMatch_pyStrip_title heqnt
      have hlen : 4 ≤ rawTitle.length := by rw [← hstrip]; exact hcond.1
      have hkw : (skipKeywords.any fun kw => strContainsSub rawTitle kw) =
          false := by rw [← hstrip]; exact hcond.2.1
      refine ⟨?_, ?_, ?_⟩
      · rw [hnum, fmtGo_step_heading heqnt, if_pos ⟨hlen, hkw⟩]
      · rw [hid, hnum]
      · refine ⟨("<" ++ ("h" ++ toString ((dotSplit number).length + 1))).data
            ++ [' '],
          (" class=\"heading level-" ++
            toString (dotSplit number).length ++ "\">" ++
            escapeHtml (pyStrip line) ++ "</" ++
            ("h" ++ toString ((dotSplit number).length + 1)) ++ ">").data, ?_⟩
        rw [hnum, hid]
        simp only [headingHtml, String.data_append]
        simp [List.append_assoc]
    · exact absurd h (by simp)

theorem claim_C3_id_coupling_witness :
    (tocLineEntry? [] "1. ABCD" =
      some { id := "h-1", number := "1", title := "ABCD", level := 1 }) ∧
    (fmtGo false [] ["1. ABCD"] =
      ([("1. ABCD" : String)], [headingHtml "1" (pyStrip "1. ABCD")]) ::
        fmtGo false [] [] ∧
      ("h-1" : String) = headingId "1" ∧
      ∃ pre post : List Char, (headingHtml "1" (pyStrip "1. ABCD")).data =
        pre ++ ("id=\"" ++ "h-1" ++ "\"").data ++ post) :=
  ⟨by decide,
    @claim_C3_id_coupling [] "1. ABCD" ⟨"h-1", "1", "ABCD", 1⟩ [] [] (by decide)⟩

/-- **C4** (counterexample): the claim requires *a single space* after the
period, but the regex is `\.\s+`: the trimmed line `"1.\tABCD"` (a tab after
the period, no space anywhere) is recognized as a heading candidate although
it does not have the claimed shape. -/
theorem claim_C4_counterexample :
    (headingMatch? "1.\tABCD").isSome = true ∧
      pyStrip "1.\tABCD" = "1.\tABCD" ∧ ¬ specHeadingShape "1.\tABCD" := by
  refine ⟨by decide, by decide, ?_⟩
  rintro ⟨comps, rest, _, _, _, _, h5⟩
  have hmem : ' ' ∈ ("1.\tABCD" : String).data := by
    rw [h5]
    exact List.mem_append_right _
      (List.mem_cons_of_mem _ (List.mem_cons_self _ _))
  exact absurd hmem (by decide)

/-- **C4** (amended): a trimmed, newline-free line is recognized as a heading
candidate (the shared regex of `extract_toc` and the body renderer matches)
if and only if it consists of 1 to 3 dot-separated non-negative integers,
followed by a literal period, **one or more whitespace characters**, and a
non-empty remainder. -/
theorem claim_C4_recognition (s : String) (hstrip : pyStrip s = s)
    (hnl : ∀ c ∈ s.data, (c == '\n') = false) :
    (headingMatch? s).isSome = true ↔ amendedHeadingShape s := by
  constructor
  · intro h
    obtain ⟨nt, hnt⟩ := Option.isSome_iff_exists.mp h
    exact headingMatch_shape_sound hnt
  · exact headingMatch_shape_complete hstrip hnl

theorem claim_C4_recognition_witness :
    (pyStrip "1. ABCD" = "1. ABCD" ∧
      (∀ c ∈ ("1. ABCD" : String).data, (c == '\n') = false)) ∧
    ((headingMatch? "1. ABCD").isSome = true ↔
      amendedHeadingShape "1. ABCD") :=
  ⟨⟨by decide, by decide⟩, claim_C4_recognition "1. ABCD" (by decide) (by decide)⟩

/-- **C5** (confirmed): numeric paths are unique in any extracted outline
(any two distinct entries have different `number`s), and on the
specification's own duplicate example the TOC keeps exactly one entry — the
first occurrence, with the first line's title. -/
theorem claim_C5_unique_numbers :
    (∀ content : String,
      (extract_toc content).Pairwise fun a b => a.number ≠ b.number) ∧
    extract_toc "2.1. First Title\n2.1. Second Title" =
      [{ id := "h-2-1", number := "2.1", title := "First Title", level := 2 }] :=
  ⟨fun _ => extractTocGo_numbers_pairwise _ _, by decide⟩

/-- **C6** (confirmed): a line matching the heading pattern that passes the
length and denylist checks but whose numeric path was already accepted is
dropped from the TOC (`tocLineEntry?` returns `none` because of the
duplicate check), yet the body renderer still emits a full heading fragment
for it — its filter does not consult the set of accepted numbers. -/
theorem claim_C6_duplicate_orphan {ids : List String}
    {line number title : String} (cl rest : List String)
    (hm : headingMatch? (pyStrip line) = some (number, title))
    (hlen : 4 ≤ title.length)
    (hkw : (skipKeywords.any fun kw => strContainsSub title kw) = false)
    (hdup : number ∈ ids) :
    tocLineEntry? ids line = none ∧
    fmtGo false cl (line :: rest) =
      ([line], [headingHtml number (pyStrip line)]) :: fmtGo false cl rest := by
  constructor
  · simp only [tocLineEntry?, hm]
    rw [if_neg]
    intro hc
    exact hc.2.2.2.2 hdup
  · rw [fmtGo_step_heading hm, if_pos ⟨hlen, hkw⟩]

theorem claim_C6_duplicate_orphan_witness :
    (headingMatch? (pyStrip "1. ABCE") = some ("1", "ABCE") ∧
      4 ≤ ("ABCE" : String).length ∧
      (skipKeywords.any fun kw => strContainsSub "ABCE" kw) = false ∧
      ("1" : String) ∈ ["1"]) ∧
    (tocLineEntry? ["1"] "1. ABCE" = none ∧
      fmtGo false [] ["1. ABCE"] =
        ([("1. ABCE" : String)], [headingHtml "1" (pyStrip "1. ABCE")]) ::
          fmtGo false [] []) :=
  ⟨⟨by decide, by decide, by decide, by decide⟩,
    @claim_C6_duplicate_orphan ["1"] "1. ABCE" "1" "ABCE" [] [] (by decide)
      (by decide) (by decide) (by decide)⟩

/-- **C7** (confirmed): `"1. ABCD"` is accepted as a heading with level 1,
number `"1"` and id `"h-1"`, while `"1. ABC"` is rejected (title length 3)
and rendered as a paragraph; lengths count logical characters, so the
four-character CJK title `"中文字符"` also meets the minimum. -/
theorem claim_C7_length_boundary :
    extract_toc "1. ABCD" =
      [{ id := "h-1", number := "1", title := "ABCD", level := 1 }] ∧
    format_content_to_html "1. ABCD" "" =
      "<h2 id=\"h-1\" class=\"heading level-1\">1. ABCD</h2>" ∧
    extract_toc "1. ABC" = [] ∧
    format_content_to_html "1. ABC" "" = "<p>1. ABC</p>" ∧
    ("ABCD" : String).length = 4 ∧ ("ABC" : String).length = 3 ∧
    ("中文字符" : String).length = 4 ∧
    extract_toc "1. 中文字符" =
      [{ id := "h-1", number := "1", title := "中文字符", level := 1 }] := by
  decide

/-- **C8** (confirmed): `"public void foo() \x7b"` followed by two statement
lines and a lone `"\x7d"` collects all four lines into one escaped code
fragment, the running brace balance ending at exactly zero after the last
line (`braceBranch` pulls 3 lines of the tail, final balance 0); a lone
collected line whose balance never reaches zero (`"class X \x7b"` at end of
input, balance 1) falls back to a plain paragraph fragment. -/
theorem claim_C8_brace_heuristic :
    format_content_to_html "public void foo() \x7b\nint x = 1;\nint y = 2;\n\x7d"
        "" =
      "<pre><code>public void foo() \x7b\nint x = 1;\nint y = 2;\n\x7d</code></pre>" ∧
    braceBranch "public void foo() \x7b" ["int x = 1;", "int y = 2;", "\x7d"] =
      (3, 0) ∧
    format_content_to_html "class X \x7b" "" = "<p>class X \x7b</p>" ∧
    braceBranch "class X \x7b" [] = (0, 1) := by
  decide

/-- **C9** (confirmed): if a fence is opened and no later line's trimmed
content starts with three backticks, the fence never closes: the opening
line is consumed emitting nothing, every following line is buffered emitting
nothing, and the buffer is discarded at end of input — the whole tail
contributes no fragment to the output. -/
theorem claim_C9_unclosed_fence {opener : String} {body : List String}
    (cl : List String)
    (hop : strStarts (pyStrip opener) fenceStr = true)
    (hbody : ∀ l ∈ body, strStarts (pyStrip l) fenceStr = false) :
    fmtGo false cl (opener :: body) =
      ([opener], []) :: (body.map fun l => ([l], [])) ∧
    ((fmtGo false cl (opener :: body)).map Prod.snd).flatten = [] := by
  have h1 : fmtGo false cl (opener :: body) =
      ([opener], []) :: (body.map fun l => ([l], [])) := by
    rw [fmtGo_step_fence_open hop, fmtGo_fence_unclosed body [] hbody]
  refine ⟨h1, ?_⟩
  rw [h1]
  simp [map_snd_buffered_flatten body]

theorem claim_C9_unclosed_fence_witness :
    (strStarts (pyStrip "```") fenceStr = true ∧
      (∀ l ∈ (["secret", "stuff `` here"] : List String),
        strStarts (pyStrip l) fenceStr = false)) ∧
    ((fmtGo false [] ("```" :: ["secret", "stuff `` here"])).map
      Prod.snd).flatten = [] :=
  ⟨⟨by decide, by decide⟩,
    (claim_C9_unclosed_fence [] (by decide) (by decide)).2⟩

/-- **C10** (confirmed): a numeric-pattern line whose title is long enough
and denylist-free but starts with `"http"` is excluded from the TOC (the
extractor's filter tests `title.startswith('http')`), yet the body renderer
still emits a heading fragment for it (its filter has no http test) — an
orphan heading with no navigation entry. -/
theorem claim_C10_http_orphan {ids : List String}
    {line number title : String} (cl rest : List String)
    (hm : headingMatch? (pyStrip line) = some (number, title))
    (hlen : 4 ≤ title.length)
    (hkw : (skipKeywords.any fun kw => strContainsSub title kw) = false)
    (hhttp : strStarts title "http" = true) :
    tocLineEntry? ids line = none ∧
    fmtGo false cl (line :: rest) =
      ([line], [headingHtml number (pyStrip line)]) :: fmtGo false cl rest := by
  constructor
  · simp only [tocLineEntry?, hm]
    rw [if_neg]
    intro hc
    have hhf := hc.2.2.1
    rw [headingMatch_pyStrip_title hm] at hhf
    rw [hhttp] at hhf
    exact absurd hhf (by simp)
  · rw [fmtGo_step_heading hm, if_pos ⟨hlen, hkw⟩]

theorem claim_C10_http_orphan_witness :
    (headingMatch? (pyStrip "1. httpd configuration") =
        some ("1", "httpd configuration") ∧
      4 ≤ ("httpd configuration" : String).length ∧
      (skipKeywords.any fun kw => strContainsSub "httpd configuration" kw) =
        false ∧
      strStarts "httpd configuration" "http" = true) ∧
    (tocLineEntry? [] "1. httpd configuration" = none ∧
      fmtGo false [] ["1. httpd configuration"] =
        ([("1. httpd configuration" : String)],
          [headingHtml "1" (pyStrip "1. httpd configuration")]) ::
          fmtGo false [] []) :=
  ⟨⟨by decide, by decide, by decide, by decide⟩,
    @claim_C10_http_orphan [] "1. httpd configuration" "1"
      "httpd configuration" [] [] (by decide) (by decide) (by decide)
      (by decide)⟩

end BuildHtml
